import Mathlib

/-!
Verification of the election-dashboard price pipeline: a shallow embedding of
the price normalizer, direct-market lookup, combinatorial resolver, market
selector, fair-value model and signal generator (src/kalshi_client.py,
src/app.py, src/models.py), together with theorems settling the specified
properties.  Python floats are modelled by `ℚ`; Python's `round(x, 1)` is
modelled by `round1` below (round to one decimal place).
-/

namespace ElectionDash

/-- Python round(x, 1): round a value to one decimal place, as `get_price_pct`,
`derive_from_combos`, `rcp_to_house_fair_value` and `build_signals` all do.
Stated as `⌊10x + 1/2⌋ / 10` over `ℚ`, kept executable via `Rat.floor`. -/
def round1 (x : ℚ) : ℚ := ((10 * x + 1 / 2).floor : ℚ) / 10

/-- Python `str.upper()`, character by character. -/
def upperStr (s : String) : String := ⟨s.data.map Char.toUpper⟩

/-- Python `str.endswith(suffix)`. -/
def endsWithStr (s suffix : String) : Bool := List.isSuffixOf suffix.data s.data

/-- One optional price field of a market record: the field may be missing
(`absent`, Python `None`), hold a value `float()` parses (`num v`), or be
present but unparseable (`junk`, where Python `float()` raises
`ValueError`/`TypeError`). -/
inductive PriceField where
  | absent : PriceField
  | num : ℚ → PriceField
  | junk : PriceField
deriving DecidableEq

/-- The result of attempting `float(val)` on a field: `some` on a parseable
value, `none` when the field is missing or the conversion raises (both make
`get_price_pct` move on to the next field). -/
def PriceField.parse : PriceField → Option ℚ
  | .num v => some v
  | _ => none

/-- A market record as built by `discover_all_markets` (src/kalshi_client.py):
ticker plus the four alternate price fields and a volume. -/
structure Market where
  ticker : String
  yes_bid_dollars : PriceField
  last_price_dollars : PriceField
  yes_bid : PriceField
  last_price : PriceField
  volume : ℕ
deriving DecidableEq

/-- Embedding of `get_price_pct` (src/kalshi_client.py lines 22-38): extract the yes price
as a 0-100 percentage.  Dollar-denominated fields are tried first (scaled by
100), then integer-cent fields; the first field that parses wins, and a field
that fails to parse is skipped (the Python `try`/`except continue`). -/
def get_price_pct (m : Market) : Option ℚ :=
  match m.yes_bid_dollars.parse with
  | some v => some (round1 (v * 100))
  | none =>
    match m.last_price_dollars.parse with
    | some v => some (round1 (v * 100))
    | none =>
      match m.yes_bid.parse with
      | some v => some (round1 v)
      | none =>
        match m.last_price.parse with
        | some v => some (round1 v)
        | none => none

/-- Embedding of `find_by_side` (src/kalshi_client.py lines 41-46): first market in list
order whose upper-cased ticker ends with the upper-cased suffix. -/
def find_by_side : List Market → String → Option Market
  | [], _ => none
  | m :: rest, suffix =>
    if endsWithStr (upperStr m.ticker) (upperStr suffix) then some m
    else find_by_side rest suffix

/-- The `prices` dict built inside `derive_from_combos`: the normalized price
each of the four outcome buckets RR, RD, DR, DD has received (if any). -/
structure ComboPrices where
  rr : Option ℚ
  rd : Option ℚ
  dr : Option ℚ
  dd : Option ℚ
deriving DecidableEq

/-- One iteration of the classification loop of `derive_from_combos`
(src/app.py lines 43-51): skip a market with no price, otherwise store its
price under the first of RR, RD, DR, DD that its upper-cased ticker ends with
(later markets overwrite earlier ones in the same bucket, as a dict write
does). -/
def updateCombo (p : ComboPrices) (m : Market) : ComboPrices :=
  let ticker := upperStr m.ticker
  match get_price_pct m with
  | none => p
  | some pct =>
    if endsWithStr ticker ("-RR") then ⟨some pct, p.rd, p.dr, p.dd⟩
    else if endsWithStr ticker ("-RD") then ⟨p.rr, some pct, p.dr, p.dd⟩
    else if endsWithStr ticker ("-DR") then ⟨p.rr, p.rd, some pct, p.dd⟩
    else if endsWithStr ticker ("-DD") then ⟨p.rr, p.rd, p.dr, some pct⟩
    else p

/-- The full classification loop of `derive_from_combos`, started from the
empty dict. -/
def combo_prices (combo_markets : List Market) : ComboPrices :=
  combo_markets.foldl updateCombo ⟨none, none, none, none⟩

/-- The result of `derive_from_combos`: the four derived marginals plus the
raw four-outcome map. -/
structure ComboResult where
  dem_house : ℚ
  rep_house : ℚ
  rep_senate : ℚ
  dem_senate : ℚ
  combos : ComboPrices
deriving DecidableEq

/-- Embedding of `derive_from_combos` (src/app.py lines 41-63): `None` unless all four
outcome buckets got a price, otherwise the four marginals rounded to one
decimal place, together with the raw bucket map. -/
def derive_from_combos (combo_markets : List Market) : Option ComboResult :=
  let prices := combo_prices combo_markets
  match prices.rr, prices.rd, prices.dr, prices.dd with
  | some rr, some rd, some dr, some dd =>
    some ⟨round1 (dr + dd), round1 (rr + rd), round1 (rr + dr), round1 (rd + dd), prices⟩
  | _, _, _, _ => none

/-- The house-side market selection of src/app.py lines 73-86: start from the
direct market (if any) with its normalized price and a `direct (<ticker>)`
label; when that leaves the price `None` and a combo result exists, overwrite
with the combo-derived Dem-House marginal and its label. -/
def select_house (house_markets : List Market) (combo_implied : Option ComboResult) :
    Option ℚ × String :=
  let first : Option ℚ × String :=
    match find_by_side house_markets ("-D") with
    | some d => (get_price_pct d, "direct (" ++ d.ticker ++ ")")
    | none => (none, "")
  match first.1, combo_implied with
  | none, some c => (some c.dem_house, "combo-implied (DR+DD)")
  | _, _ => first

/-- The senate-side market selection of src/app.py lines 73-93, analogous to
`select_house` with suffix `-R` and the Rep-Senate marginal. -/
def select_senate (senate_markets : List Market) (combo_implied : Option ComboResult) :
    Option ℚ × String :=
  let first : Option ℚ × String :=
    match find_by_side senate_markets ("-R") with
    | some d => (get_price_pct d, "direct (" ++ d.ticker ++ ")")
    | none => (none, "")
  match first.1, combo_implied with
  | none, some c => (some c.rep_senate, "combo-implied (RR+DR)")
  | _, _ => first

/-- Embedding of `rcp_to_house_fair_value` (src/models.py lines 4-12): generic-ballot
margin to implied Dem House control probability, clamped to [10, 90]. -/
def rcp_to_house_fair_value (dem_generic rep_generic : ℚ) : ℚ :=
  let margin := dem_generic - rep_generic
  let house_prob := max 10 (min 90 (50 + margin * 6))
  round1 house_prob

/-- clamp(x, lo, hi) as the spec's algorithm words it. -/
def clamp (lo hi x : ℚ) : ℚ := max lo (min hi x)

/-- The Fair-Value Model written exactly as the spec states it:
`round(clamp(50 + (dem − rep) × 6, 10, 90), 1)`; compared against
`rcp_to_house_fair_value`. -/
def houseFairValueSpec (dem rep : ℚ) : ℚ :=
  round1 (clamp 10 90 (50 + (dem - rep) * 6))

/-- Embedding of `SENATE_RCP_FAIR` (src/models.py line 16): the placeholder Senate fair
value. -/
def SENATE_RCP_FAIR : ℚ := 58

/-- One signal row as `build_signals` emits it (src/models.py): the dict keys
Market, Kalshi %, Source, RCP Fair %, Edge %, Signal in order. -/
structure Signal where
  market : String
  kalshi : ℚ
  source : String
  fair : ℚ
  edge : ℚ
  signal : String
deriving DecidableEq

/-- The house signal row appended by `build_signals` when the house price is
available (src/models.py lines 29-45). -/
def houseSignalRec (house_kalshi : ℚ) (house_source : String) (house_fair : ℚ) : Signal :=
  ⟨"Dem House Control", house_kalshi, house_source, house_fair,
    round1 (house_kalshi - house_fair),
    if round1 (house_kalshi - house_fair) > 8 then "🟢 Strong Buy"
    else if round1 (house_kalshi - house_fair) < -8 then "🔴 Strong Sell"
    else "🟡 Watch"⟩

/-- The senate signal row appended by `build_signals` when the senate price is
available (src/models.py lines 47-61). -/
def senateSignalRec (senate_kalshi : ℚ) (senate_source : String) : Signal :=
  ⟨"Rep Senate Control", senate_kalshi, senate_source, SENATE_RCP_FAIR,
    round1 (senate_kalshi - SENATE_RCP_FAIR),
    if round1 (senate_kalshi - SENATE_RCP_FAIR) > 5 then "🔴 Sell"
    else if round1 (senate_kalshi - SENATE_RCP_FAIR) < -5 then "🟢 Buy"
    else "🟡 Watch"⟩

/-- Embedding of `build_signals` (src/models.py lines 19-63): a house row when the house
price is available, then a senate row when the senate price is available. -/
def build_signals (house_kalshi : Option ℚ) (house_source : String) (house_fair : ℚ)
    (senate_kalshi : Option ℚ) (senate_source : String) : List Signal :=
  (match house_kalshi with
   | some hk => [houseSignalRec hk house_source house_fair]
   | none => []) ++
  (match senate_kalshi with
   | some sk => [senateSignalRec sk senate_source]
   | none => [])

/-- A direct house market none of whose price fields parses (every field is
present but unparseable). -/
def mJunkD : Market := ⟨"CONTROLH-26-D", .junk, .junk, .junk, .junk, 7⟩

/-- A direct house market quoted at 0.53 dollars in its first field. -/
def mDollar : Market := ⟨"CONTROLH-26-D", .num (53 / 100), .absent, .absent, .absent, 3⟩

/-- A concrete combo-derived result used as a fallback source in examples. -/
def comboEx : ComboResult := ⟨50, 50, 50, 50, ⟨some 10, some 20, some 30, some 40⟩⟩

/-- The data-model invariant on a dollar-denominated price field: a parseable
value lies in [0, 1] (absent or unparseable fields are unconstrained). -/
def dollar_field_ok : PriceField → Prop
  | .num v => 0 ≤ v ∧ v ≤ 1
  | _ => True

/-- The data-model invariant on an integer-cent price field: a parseable value
lies in [0, 100]. -/
def cent_field_ok : PriceField → Prop
  | .num v => 0 ≤ v ∧ v ≤ 100
  | _ => True

/- ── rounding helper lemmas ─────────────────────────────────────────── -/

theorem intFloor_eq_ratFloor (q : ℚ) : ⌊q⌋ = q.floor := by
  rw [Rat.floor_def, Rat.floor_def']

theorem round1_eq_round (x : ℚ) : round1 x = ((round (10 * x) : ℤ) : ℚ) / 10 := by
  rw [round1, round_eq, intFloor_eq_ratFloor]

theorem round1_mono {x y : ℚ} (h : x ≤ y) : round1 x ≤ round1 y := by
  rw [round1, round1, ← intFloor_eq_ratFloor, ← intFloor_eq_ratFloor]
  have h10 : 10 * x + 1 / 2 ≤ 10 * y + 1 / 2 := by linarith
  have hfl := Int.floor_le_floor (α := ℚ) h10
  have hcast : ((⌊10 * x + 1 / 2⌋ : ℤ) : ℚ) ≤ ((⌊10 * y + 1 / 2⌋ : ℤ) : ℚ) := by
    exact_mod_cast hfl
  have h10pos : (0 : ℚ) < 10 := by norm_num
  exact (div_le_div_iff_of_pos_right h10pos).mpr hcast

theorem round1_intCast (n : ℤ) : round1 ((n : ℚ)) = n := by
  rw [round1_eq_round]
  have h : (10 : ℚ) * n = ((10 * n : ℤ) : ℚ) := by push_cast; ring
  rw [h, round_intCast]
  push_cast
  rw [mul_comm, mul_div_assoc]
  norm_num

theorem round1_nonneg {x : ℚ} (h : 0 ≤ x) : 0 ≤ round1 x := by
  have h0 : round1 0 = 0 := by exact_mod_cast round1_intCast 0
  calc (0 : ℚ) = round1 0 := h0.symm
  _ ≤ round1 x := round1_mono h

theorem round1_le_hundred {x : ℚ} (h : x ≤ 100) : round1 x ≤ 100 := by
  have h0 : round1 100 = 100 := by exact_mod_cast round1_intCast 100
  calc round1 x ≤ round1 100 := round1_mono h
  _ = 100 := h0

/- ── general helper lemmas ──────────────────────────────────────────── -/

theorem house_ne_senate_label : ("Dem House Control" : String) ≠ "Rep Senate Control" := by
  decide

/-- Classification of a two-threshold `if`/`elif`/`else` over three distinct
labels, assuming the lower threshold does not exceed the upper one. -/
theorem threeWayString (e th1 th2 : ℚ) (A B C : String) (hth : th2 ≤ th1)
    (hAB : A ≠ B) (hAC : A ≠ C) (hBC : B ≠ C) :
    ((if e > th1 then A else if e < th2 then B else C) = A ↔ e > th1)
    ∧ ((if e > th1 then A else if e < th2 then B else C) = B ↔ e < th2)
    ∧ ((if e > th1 then A else if e < th2 then B else C) = C ↔ (e ≤ th1 ∧ th2 ≤ e)) := by
  split_ifs with h1 h2
  · refine ⟨by simp [h1], ?_, ?_⟩
    · constructor
      · intro hab
        exact absurd hab hAB
      · intro h2'
        linarith
    · constructor
      · intro hac
        exact absurd hac hAC
      · intro hc
        linarith [hc.1]
  · refine ⟨?_, by simp [h2], ?_⟩
    · constructor
      · intro hba
        exact absurd hba.symm hAB
      · intro h1'
        exact absurd h1' h1
    · constructor
      · intro hbc
        exact absurd hbc hBC
      · intro hc
        exact absurd hc.2 (not_le.mpr h2)
  · have hle1 : e ≤ th1 := not_lt.mp h1
    have hle2 : th2 ≤ e := not_lt.mp h2
    refine ⟨?_, ?_, by simp [hle1, hle2]⟩
    · constructor
      · intro hca
        exact absurd hca.symm hAC
      · intro hgt
        exact absurd hgt h1
    · constructor
      · intro hcb
        exact absurd hcb.symm hBC
      · intro hlt
        exact absurd hlt h2

/- ── the claims ─────────────────────────────────────────────────────── -/

/-- C5: the Fair-Value Model formula — `rcp_to_house_fair_value` agrees with
the spec's formula `round(clamp(50 + (dem − rep) × 6, 10, 90), 1)` on every
input pair, as a pure function of the two percentages alone. -/
theorem fair_value_formula (dem rep : ℚ) :
    rcp_to_house_fair_value dem rep = houseFairValueSpec dem rep := rfl

/-- C7: the Fair-Value Model is monotone non-decreasing in the margin
Dem% − Rep%, always lies in [10, 90], and margin 0 gives 50.0, margin +10
gives 90.0 (clamped), margin −20 gives 10.0 (clamped). -/
theorem fair_value_monotone_bounds (d r d' r' : ℚ) :
    ((d - r ≤ d' - r') → rcp_to_house_fair_value d r ≤ rcp_to_house_fair_value d' r')
    ∧ 10 ≤ rcp_to_house_fair_value d r
    ∧ rcp_to_house_fair_value d r ≤ 90
    ∧ rcp_to_house_fair_value 47 47 = 50
    ∧ rcp_to_house_fair_value 50 40 = 90
    ∧ rcp_to_house_fair_value 30 50 = 10 := by
  have h10 : round1 (10 : ℚ) = 10 := by exact_mod_cast round1_intCast 10
  have h50 : round1 (50 : ℚ) = 50 := by exact_mod_cast round1_intCast 50
  have h90 : round1 (90 : ℚ) = 90 := by exact_mod_cast round1_intCast 90
  refine ⟨?_, ?_, ?_, ?_, ?_, ?_⟩
  · intro h
    unfold rcp_to_house_fair_value
    exact round1_mono (max_le_max (le_refl 10) (min_le_min (le_refl 90) (by linarith)))
  · unfold rcp_to_house_fair_value
    calc (10 : ℚ) = round1 10 := h10.symm
    _ ≤ round1 (max 10 (min 90 (50 + (d - r) * 6))) := round1_mono (le_max_left _ _)
  · unfold rcp_to_house_fair_value
    calc round1 (max 10 (min 90 (50 + (d - r) * 6)))
        ≤ round1 90 := round1_mono (max_le (by norm_num) (min_le_left _ _))
    _ = 90 := h90
  · show round1 (max 10 (min 90 (50 + ((47 : ℚ) - 47) * 6))) = 50
    rw [show (50 : ℚ) + (47 - 47) * 6 = 50 by norm_num,
      min_eq_right (by norm_num : (50 : ℚ) ≤ 90),
      max_eq_right (by norm_num : (10 : ℚ) ≤ 50)]
    exact h50
  · show round1 (max 10 (min 90 (50 + ((50 : ℚ) - 40) * 6))) = 90
    rw [show (50 : ℚ) + (50 - 40) * 6 = 110 by norm_num,
      min_eq_left (by norm_num : (90 : ℚ) ≤ 110),
      max_eq_right (by norm_num : (10 : ℚ) ≤ 90)]
    exact h90
  · show round1 (max 10 (min 90 (50 + ((30 : ℚ) - 50) * 6))) = 10
    rw [show (50 : ℚ) + (30 - 50) * 6 = -70 by norm_num,
      min_eq_right (by norm_num : (-70 : ℚ) ≤ 90),
      max_eq_left (by norm_num : (-70 : ℚ) ≤ 10)]
    exact h10

/-- C2: the Signal Generator's classification — the house row carries edge
round(price − fair, 1) and reads Strong Buy exactly when edge > 8, Strong
Sell exactly when edge < −8, Watch otherwise; the senate row carries edge
round(price − 58, 1) and reads Sell exactly when edge > 5, Buy exactly when
edge < −5, Watch otherwise. -/
theorem signal_classification (hk hf sk : ℚ) (hs ss : String) :
    build_signals (some hk) hs hf (some sk) ss
      = [houseSignalRec hk hs hf, senateSignalRec sk ss]
    ∧ (houseSignalRec hk hs hf).edge = round1 (hk - hf)
    ∧ ((houseSignalRec hk hs hf).signal = "🟢 Strong Buy" ↔ round1 (hk - hf) > 8)
    ∧ ((houseSignalRec hk hs hf).signal = "🔴 Strong Sell" ↔ round1 (hk - hf) < -8)
    ∧ ((houseSignalRec hk hs hf).signal = "🟡 Watch" ↔
        (round1 (hk - hf) ≤ 8 ∧ -8 ≤ round1 (hk - hf)))
    ∧ (senateSignalRec sk ss).edge = round1 (sk - 58)
    ∧ ((senateSignalRec sk ss).signal = "🔴 Sell" ↔ round1 (sk - 58) > 5)
    ∧ ((senateSignalRec sk ss).signal = "🟢 Buy" ↔ round1 (sk - 58) < -5)
    ∧ ((senateSignalRec sk ss).signal = "🟡 Watch" ↔
        (round1 (sk - 58) ≤ 5 ∧ -5 ≤ round1 (sk - 58))) := by
  have hHouse := threeWayString (round1 (hk - hf)) 8 (-8)
    ("🟢 Strong Buy") ("🔴 Strong Sell") ("🟡 Watch")
    (by norm_num) (by decide) (by decide) (by decide)
  have hSen := threeWayString (round1 (sk - SENATE_RCP_FAIR)) 5 (-5)
    ("🔴 Sell") ("🟢 Buy") ("🟡 Watch")
    (by norm_num) (by decide) (by decide) (by decide)
  exact ⟨rfl, rfl, hHouse.1, hHouse.2.1, hHouse.2.2, rfl, hSen.1, hSen.2.1, hSen.2.2⟩

/-- C8: `build_signals` emits a house row exactly when the house price is
available and a senate row exactly when the senate price is available, and
emits nothing (raising no error) when both are unavailable. -/
theorem build_signals_emission (hk sk : Option ℚ) (hs ss : String) (hf : ℚ) :
    ((∃ s ∈ build_signals hk hs hf sk ss, s.market = "Dem House Control") ↔ hk ≠ none)
    ∧ ((∃ s ∈ build_signals hk hs hf sk ss, s.market = "Rep Senate Control") ↔ sk ≠ none)
    ∧ (hk = none → sk = none → build_signals hk hs hf sk ss = []) := by
  rcases hk with _ | h <;> rcases sk with _ | s <;>
    simp [build_signals, houseSignalRec, senateSignalRec, house_ne_senate_label,
      house_ne_senate_label.symm]

/-- C9: the senate signal is a constant of the scraped polls — two pipeline
runs differing only in the poll percentages (hence in the derived house fair
value) produce the same senate rows, and any senate row's fair value is the
configured constant `SENATE_RCP_FAIR = 58`. -/
theorem senate_signal_poll_independent (dem rep dem' rep' : ℚ) (hk sk : Option ℚ)
    (hs ss : String) :
    (build_signals hk hs (rcp_to_house_fair_value dem rep) sk ss).filter
        (fun s => decide (s.market = "Rep Senate Control"))
      = (build_signals hk hs (rcp_to_house_fair_value dem' rep') sk ss).filter
        (fun s => decide (s.market = "Rep Senate Control"))
    ∧ (∀ s ∈ build_signals hk hs (rcp_to_house_fair_value dem rep) sk ss,
        s.market = "Rep Senate Control" → s.fair = SENATE_RCP_FAIR)
    ∧ SENATE_RCP_FAIR = 58 := by
  rcases hk with _ | h <;> rcases sk with _ | s <;>
    simp [build_signals, houseSignalRec, senateSignalRec, List.filter,
      house_ne_senate_label, house_ne_senate_label.symm, SENATE_RCP_FAIR]

/-- C3: the Combinatorial Resolver returns no result exactly when one of the
four outcome buckets RR, RD, DR, DD received no normalized price, and when
all four hold rr, rd, dr, dd it returns dem_house = round1(dr+dd),
rep_house = round1(rr+rd), rep_senate = round1(rr+dr),
dem_senate = round1(rd+dd) plus the raw bucket map. -/
theorem derive_from_combos_spec (ms : List Market) :
    (derive_from_combos ms = none ↔
      ((combo_prices ms).rr = none ∨ (combo_prices ms).rd = none ∨
       (combo_prices ms).dr = none ∨ (combo_prices ms).dd = none))
    ∧ (∀ rr rd dr dd : ℚ,
        (combo_prices ms).rr = some rr → (combo_prices ms).rd = some rd →
        (combo_prices ms).dr = some dr → (combo_prices ms).dd = some dd →
        derive_from_combos ms = some ⟨round1 (dr + dd), round1 (rr + rd),
          round1 (rr + dr), round1 (rd + dd), combo_prices ms⟩) := by
  simp only [derive_from_combos]
  generalize combo_prices ms = p
  obtain ⟨orr, ord, odr, odd⟩ := p
  rcases orr with _ | rr <;> rcases ord with _ | rd <;>
    rcases odr with _ | dr <;> rcases odd with _ | dd <;> simp
  rintro rr1 rd1 dr1 dd1 rfl rfl rfl rfl
  exact ⟨rfl, rfl, rfl, rfl⟩

/-- C4: the Price Normalizer tries the two fractional-dollar fields first
(scaling by 100), then the two integer-cent fields, returns the first field
present and parseable rounded to one decimal, returns no price when no field
parses, and a present-but-unparseable field is skipped exactly as an absent
one is (no exception escapes), so a valid dollar field always wins over a
valid cent field. -/
theorem get_price_pct_priority (m : Market) (t : String) (f2 f3 f4 : PriceField)
    (vol : ℕ) :
    (∀ v : ℚ, m.yes_bid_dollars.parse = some v →
      get_price_pct m = some (round1 (v * 100)))
    ∧ (m.yes_bid_dollars.parse = none → ∀ v : ℚ, m.last_price_dollars.parse = some v →
        get_price_pct m = some (round1 (v * 100)))
    ∧ (m.yes_bid_dollars.parse = none → m.last_price_dollars.parse = none →
        ∀ v : ℚ, m.yes_bid.parse = some v → get_price_pct m = some (round1 v))
    ∧ (m.yes_bid_dollars.parse = none → m.last_price_dollars.parse = none →
        m.yes_bid.parse = none → ∀ v : ℚ, m.last_price.parse = some v →
        get_price_pct m = some (round1 v))
    ∧ (m.yes_bid_dollars.parse = none → m.last_price_dollars.parse = none →
        m.yes_bid.parse = none → m.last_price.parse = none → get_price_pct m = none)
    ∧ get_price_pct ⟨t, .junk, f2, f3, f4, vol⟩ = get_price_pct ⟨t, .absent, f2, f3, f4, vol⟩
    ∧ get_price_pct ⟨t, f2, .junk, f3, f4, vol⟩ = get_price_pct ⟨t, f2, .absent, f3, f4, vol⟩
    ∧ get_price_pct ⟨t, f2, f3, .junk, f4, vol⟩ = get_price_pct ⟨t, f2, f3, .absent, f4, vol⟩
    ∧ get_price_pct ⟨t, f2, f3, f4, .junk, vol⟩ = get_price_pct ⟨t, f2, f3, f4, .absent, vol⟩ := by
  obtain ⟨tick, g1, g2, g3, g4, w⟩ := m
  refine ⟨?_, ?_, ?_, ?_, ?_, ?_, ?_, ?_, ?_⟩
  · intro v hv
    cases g1 <;> simp_all [get_price_pct, PriceField.parse]
  · intro h1 v hv
    cases g1 <;> cases g2 <;> simp_all [get_price_pct, PriceField.parse]
  · intro h1 h2 v hv
    cases g1 <;> cases g2 <;> cases g3 <;> simp_all [get_price_pct, PriceField.parse]
  · intro h1 h2 h3 v hv
    cases g1 <;> cases g2 <;> cases g3 <;> cases g4 <;>
      simp_all [get_price_pct, PriceField.parse]
  · intro h1 h2 h3 h4
    cases g1 <;> cases g2 <;> cases g3 <;> cases g4 <;>
      simp_all [get_price_pct, PriceField.parse]
  · rfl
  · cases f2 <;> rfl
  · cases f2 <;> cases f3 <;> rfl
  · cases f2 <;> cases f3 <;> cases f4 <;> rfl

/-- A returned price always comes from one of the four fields, dollar fields
scaled by 100, cent fields as-is. -/
theorem get_price_pct_cases (m : Market) (p : ℚ) (hp : get_price_pct m = some p) :
    (∃ v, m.yes_bid_dollars.parse = some v ∧ p = round1 (v * 100))
    ∨ (∃ v, m.last_price_dollars.parse = some v ∧ p = round1 (v * 100))
    ∨ (∃ v, m.yes_bid.parse = some v ∧ p = round1 v)
    ∨ (∃ v, m.last_price.parse = some v ∧ p = round1 v) := by
  obtain ⟨tick, g1, g2, g3, g4, w⟩ := m
  cases g1 <;> cases g2 <;> cases g3 <;> cases g4 <;>
    simp_all [get_price_pct, PriceField.parse]

/-- C6: whatever a quote's fields hold, provided they satisfy the data-model
invariant (dollar fields in [0,1], cent fields in [0,100]), `get_price_pct`
returns either no price or a percentage in [0, 100]. -/
theorem get_price_pct_in_range (m : Market)
    (h1 : dollar_field_ok m.yes_bid_dollars) (h2 : dollar_field_ok m.last_price_dollars)
    (h3 : cent_field_ok m.yes_bid) (h4 : cent_field_ok m.last_price)
    (p : ℚ) (hp : get_price_pct m = some p) : 0 ≤ p ∧ p ≤ 100 := by
  have hdl : ∀ (f : PriceField), dollar_field_ok f → ∀ v : ℚ, f.parse = some v →
      0 ≤ v ∧ v ≤ 1 := by
    intro f hf v hv
    cases f <;> simp_all [PriceField.parse, dollar_field_ok]
  have hcl : ∀ (f : PriceField), cent_field_ok f → ∀ v : ℚ, f.parse = some v →
      0 ≤ v ∧ v ≤ 100 := by
    intro f hf v hv
    cases f <;> simp_all [PriceField.parse, cent_field_ok]
  rcases get_price_pct_cases m p hp with ⟨v, hv, rfl⟩ | ⟨v, hv, rfl⟩ | ⟨v, hv, rfl⟩ | ⟨v, hv, rfl⟩
  · obtain ⟨hv0, hv1⟩ := hdl _ h1 _ hv
    exact ⟨round1_nonneg (by linarith), round1_le_hundred (by linarith)⟩
  · obtain ⟨hv0, hv1⟩ := hdl _ h2 _ hv
    exact ⟨round1_nonneg (by linarith), round1_le_hundred (by linarith)⟩
  · obtain ⟨hv0, hv1⟩ := hcl _ h3 _ hv
    exact ⟨round1_nonneg hv0, round1_le_hundred hv1⟩
  · obtain ⟨hv0, hv1⟩ := hcl _ h4 _ hv
    exact ⟨round1_nonneg hv0, round1_le_hundred hv1⟩

/-- Witness for C6: the dollar-quoted market `mDollar` satisfies the field
invariants and normalizes to 53, which lies in [0, 100]. -/
theorem get_price_pct_in_range_witness : 0 ≤ (53 : ℚ) ∧ (53 : ℚ) ≤ 100 :=
  get_price_pct_in_range mDollar
    (by norm_num [mDollar, dollar_field_ok])
    (by norm_num [mDollar, dollar_field_ok])
    (by norm_num [mDollar, cent_field_ok])
    (by norm_num [mDollar, cent_field_ok])
    53
    (by have h : ((53 : ℚ) / 100) * 100 = 53 := by norm_num
        have h53 : round1 (53 : ℚ) = 53 := by exact_mod_cast round1_intCast 53
        simp [get_price_pct, mDollar, PriceField.parse, h, h53])

/-- Lookup agreement: `find_by_side` agrees with `List.find?` of the case-insensitive suffix
test. -/
theorem find_by_side_eq_findFirst (l : List Market) (s : String) :
    find_by_side l s = l.find? (fun m => endsWithStr (upperStr m.ticker) (upperStr s)) := by
  induction l with
  | nil => rfl
  | cons m rest ih =>
    by_cases h : endsWithStr (upperStr m.ticker) (upperStr s) = true
    · simp [find_by_side, h, List.find?_cons_of_pos]
    · simp only [Bool.not_eq_true] at h
      simp [find_by_side, h, List.find?_cons_of_neg, ih]

/-- When the list splits as `l₁ ++ m :: l₂` with every member of `l₁`
failing the suffix test and `m` passing it, `find_by_side` picks `m`. -/
theorem find_by_side_append (l₁ : List Market) (m : Market) (l₂ : List Market) (s : String)
    (hm : endsWithStr (upperStr m.ticker) (upperStr s) = true)
    (hl₁ : ∀ m' ∈ l₁, endsWithStr (upperStr m'.ticker) (upperStr s) = false) :
    find_by_side (l₁ ++ m :: l₂) s = some m := by
  induction l₁ with
  | nil => simp [find_by_side, hm]
  | cons a rest ih =>
    have ha := hl₁ a (by simp)
    simp only [List.cons_append, find_by_side, ha]
    simp only [Bool.false_eq_true, if_false]
    exact ih fun m' hm' => hl₁ m' (by simp [hm'])

/-- C10: direct-market lookup is deterministic first-match — `find_by_side`
returns the first market in list order whose ticker, upper-cased on both
sides, ends with the suffix; it returns `None` exactly when no ticker does;
and with several matches the earliest wins, irrespective of its volume or
price fields (the predicate reads only the ticker). -/
theorem find_by_side_first_match (l : List Market) (s : String) :
    find_by_side l s = l.find? (fun m => endsWithStr (upperStr m.ticker) (upperStr s))
    ∧ (find_by_side l s = none ↔
        ∀ m ∈ l, endsWithStr (upperStr m.ticker) (upperStr s) = false)
    ∧ (∀ (l₁ : List Market) (m : Market) (l₂ : List Market),
        l = l₁ ++ m :: l₂ →
        endsWithStr (upperStr m.ticker) (upperStr s) = true →
        (∀ m' ∈ l₁, endsWithStr (upperStr m'.ticker) (upperStr s) = false) →
        find_by_side l s = some m) := by
  refine ⟨find_by_side_eq_findFirst l s, ?_, ?_⟩
  · rw [find_by_side_eq_findFirst]
    simp [List.find?_eq_none]
  · intro l₁ m l₂ hsplit hm hl₁
    subst hsplit
    exact find_by_side_append l₁ m l₂ s hm hl₁

/-- C1 as stated is false: with a direct house market present whose price
fields are all unparseable and a combo result available, the selection is the
combo-derived marginal, not the Price-Normalizer result of the direct market
— refuting the part of the claim that says a direct market's normalizer
result (here: no price) is always selected and that combo derivation is used
only when no direct market exists. -/
theorem market_selector_counterexample :
    ¬ (∀ (mkts : List Market) (combo : Option ComboResult) (d : Market),
        find_by_side mkts ("-D") = some d →
        select_house mkts combo = (get_price_pct d, "direct (" ++ d.ticker ++ ")")) := by
  intro hclaim
  have hfind : find_by_side [mJunkD] ("-D") = some mJunkD := rfl
  have h := hclaim [mJunkD] (some comboEx) mJunkD hfind
  have hsel : select_house [mJunkD] (some comboEx)
      = (some (50 : ℚ), "combo-implied (DR+DD)") := rfl
  have hgp : get_price_pct mJunkD = none := rfl
  rw [hsel, hgp] at h
  exact Option.noConfusion (congrArg Prod.fst h)

/-- C1 (amended): for each chamber, a direct market's normalized price is
selected with a `direct (<ticker>)` label whenever that price is available;
the combo-derived marginal is used when no direct market exists or the direct
market's normalized price is unavailable; and when no source yields a price
the selection is `None`, with an empty source exactly when no direct market
exists (a priceless direct market leaves its `direct` label behind). -/
theorem market_selector_fallback (hm sm : List Market) (combo : Option ComboResult) :
    (∀ (d : Market) (p : ℚ), find_by_side hm ("-D") = some d → get_price_pct d = some p →
      select_house hm combo = (some p, "direct (" ++ d.ticker ++ ")"))
    ∧ (find_by_side hm ("-D") = none → ∀ c, combo = some c →
        select_house hm combo = (some c.dem_house, "combo-implied (DR+DD)"))
    ∧ (∀ d : Market, find_by_side hm ("-D") = some d → get_price_pct d = none →
        ∀ c, combo = some c →
        select_house hm combo = (some c.dem_house, "combo-implied (DR+DD)"))
    ∧ (∀ d : Market, find_by_side hm ("-D") = some d → get_price_pct d = none →
        combo = none → select_house hm combo = (none, "direct (" ++ d.ticker ++ ")"))
    ∧ (find_by_side hm ("-D") = none → combo = none → select_house hm combo = (none, ""))
    ∧ (∀ (d : Market) (p : ℚ), find_by_side sm ("-R") = some d → get_price_pct d = some p →
        select_senate sm combo = (some p, "direct (" ++ d.ticker ++ ")"))
    ∧ (find_by_side sm ("-R") = none → ∀ c, combo = some c →
        select_senate sm combo = (some c.rep_senate, "combo-implied (RR+DR)"))
    ∧ (∀ d : Market, find_by_side sm ("-R") = some d → get_price_pct d = none →
        ∀ c, combo = some c →
        select_senate sm combo = (some c.rep_senate, "combo-implied (RR+DR)"))
    ∧ (∀ d : Market, find_by_side sm ("-R") = some d → get_price_pct d = none →
        combo = none → select_senate sm combo = (none, "direct (" ++ d.ticker ++ ")"))
    ∧ (find_by_side sm ("-R") = none → combo = none →
        select_senate sm combo = (none, "")) := by
  refine ⟨?_, ?_, ?_, ?_, ?_, ?_, ?_, ?_, ?_, ?_⟩
  · intro d p hfind hp
    simp [select_house, hfind, hp]
  · intro hfind c hc
    simp [select_house, hfind, hc]
  · intro d hfind hp c hc
    simp [select_house, hfind, hp, hc]
  · intro d hfind hp hc
    simp [select_house, hfind, hp, hc]
  · intro hfind hc
    simp [select_house, hfind, hc]
  · intro d p hfind hp
    simp [select_senate, hfind, hp]
  · intro hfind c hc
    simp [select_senate, hfind, hc]
  · intro d hfind hp c hc
    simp [select_senate, hfind, hp, hc]
  · intro d hfind hp hc
    simp [select_senate, hfind, hp, hc]
  · intro hfind hc
    simp [select_senate, hfind, hc]

end ElectionDash
